import Mathlib

set_option maxHeartbeats 1000000

/-!
Verification of the TradingAgents web service job engine (src/app.py).

Python strings are modelled as lists of characters (`PyStr`), Python `None`
and dynamic (duck-typed) values via dedicated inductive types enumerating the
shapes the code actually inspects, timestamps as natural numbers (seconds),
and the concurrent executor thread as a completion channel carrying the
instant at which the background analysis finishes (if ever) together with
the value it publishes to the result queue.
-/

abbrev PyStr := List Char

/-- Python `s.split(c)` for a one-character separator: splits on every
occurrence of `c`, keeping empty segments (so `splitOnChar c [] = [[]]`). -/
def splitOnChar (c : Char) : PyStr → List PyStr
  | [] => [[]]
  | x :: xs =>
    let r := splitOnChar c xs
    if x = c then [] :: r
    else
      match r with
      | [] => [[x]]
      | l :: ls => (x :: l) :: ls

/-- Python `s.strip()`: remove whitespace from both ends. -/
def pyStrip (s : PyStr) : PyStr :=
  ((s.dropWhile Char.isWhitespace).reverse.dropWhile Char.isWhitespace).reverse

/-- Python `line.split(":")[-1]`: the segment after the last colon of the
line (the whole line when it has no colon). -/
def lastColonPart (l : PyStr) : PyStr :=
  (splitOnChar ':' l).getLastD []

/-- The marker phrase scanned for by `clean_decision_result`. -/
def marker : PyStr := "FINAL TRANSACTION PROPOSAL".toList

/-- Python `"FINAL TRANSACTION PROPOSAL" in content`. -/
def containsMarker (s : PyStr) : Bool := decide (marker <:+: s)

/-- The decision values `clean_decision_result` (src/app.py:80-112)
distinguishes: Python `None`, a plain string, an object exposing a
`.content` attribute (a LangChain message), or any other value together
with its `str(...)` rendering and its Python truthiness. -/
inductive DVal
  | null
  | str (s : PyStr)
  | objWithContent (content : PyStr)
  | other (repr : PyStr) (truthy : Bool)
deriving DecidableEq

/-- Python truthiness of a `DVal` (`if not decision`). A string is falsy
exactly when empty; an object with a `content` attribute is truthy. -/
def DVal.truthy : DVal → Bool
  | .null => false
  | .str s => !s.isEmpty
  | .objWithContent _ => true
  | .other _ t => t

/-- The marker-extraction logic shared by the `.content` branch
(src/app.py:89-95) and the string branch (src/app.py:99-104): if the
content contains the marker phrase, return the trimmed segment after the
last colon of the first line containing the marker, else the content. -/
def extractDecision (content : PyStr) : PyStr :=
  if containsMarker content then
    match (splitOnChar '\n' content).find? containsMarker with
    | some line => pyStrip (lastColonPart line)
    | none => content
  else content

/-- `clean_decision_result` (src/app.py:80-112). -/
def clean_decision_result (decision : DVal) : Option PyStr :=
  if decision.truthy then
    match decision with
    | .null => none
    | .objWithContent c => some (extractDecision c)
    | .str s => some (extractDecision s)
    | .other r _ => some r
  else none

/-! ### Basic lemmas about `splitOnChar` -/

lemma splitOnChar_ne_nil (c : Char) (s : PyStr) : splitOnChar c s ≠ [] := by
  cases s with
  | nil => simp [splitOnChar]
  | cons x xs =>
    simp only [splitOnChar]
    by_cases h : x = c
    · simp [h]
    · simp only [h, if_false]
      cases splitOnChar c xs <;> simp

lemma splitOnChar_eq_singleton (c : Char) (s : PyStr) (h : c ∉ s) :
    splitOnChar c s = [s] := by
  induction s with
  | nil => rfl
  | cons x xs ih =>
    have hx : ¬ x = c := fun hxc => h (hxc ▸ List.mem_cons_self x xs)
    have hxs : c ∉ xs := fun hm => h (List.mem_cons_of_mem _ hm)
    simp only [splitOnChar, hx, if_false, ih hxs]

lemma two_le_length_splitOnChar (c : Char) (s : PyStr) (h : c ∈ s) :
    2 ≤ (splitOnChar c s).length := by
  induction s with
  | nil => cases h
  | cons x xs ih =>
    by_cases hx : x = c
    · subst hx
      have h1 : splitOnChar x xs ≠ [] := splitOnChar_ne_nil x xs
      have h2 := List.length_pos.mpr h1
      have h3 : splitOnChar x (x :: xs) = [] :: splitOnChar x xs := by
        rw [splitOnChar]
        simp
      rw [h3, List.length_cons]
      omega
    · have hxs : c ∈ xs := by
        rcases List.mem_cons.mp h with h1 | h2
        · exact absurd h1.symm hx
        · exact h2
      have ih2 := ih hxs
      simp only [splitOnChar, hx, if_false]
      cases hr : splitOnChar c xs with
      | nil => exact absurd hr (splitOnChar_ne_nil c xs)
      | cons l ls =>
        rw [hr] at ih2
        simp only [List.length_cons] at ih2 ⊢
        omega

lemma getLast?_cons_of_ne_nil {α : Type} (a : α) {l : List α} (h : l ≠ []) :
    (a :: l).getLast? = l.getLast? := by
  cases l with
  | nil => exact absurd rfl h
  | cons b m => simp [List.getLast?_cons_cons]

/-! ### A pattern without the separator lies inside a single segment -/

lemma prefix_into_head (c : Char) :
    ∀ (m s : PyStr), c ∉ m → m <+: s → ∀ hd tl, splitOnChar c s = hd :: tl →
      m <+: hd := by
  intro m
  induction m with
  | nil =>
    intro s _ _ hd tl _
    exact List.nil_prefix
  | cons y m ih =>
    intro s hc hp hd tl hsplit
    cases s with
    | nil =>
      rcases hp with ⟨t, ht⟩
      cases ht
    | cons z s =>
      obtain ⟨hyz, hp2⟩ := List.cons_prefix_cons.mp hp
      subst hyz
      have hyc : ¬ y = c := fun h => hc (h ▸ List.mem_cons_self y m)
      cases hr : splitOnChar c s with
      | nil => exact absurd hr (splitOnChar_ne_nil c s)
      | cons hd2 tl2 =>
        have hs2 : splitOnChar c (y :: s) = (y :: hd2) :: tl2 := by
          rw [splitOnChar]
          simp [hyc, hr]
        rw [hs2] at hsplit
        injection hsplit with h1 h2
        subst h1
        have hm2 : m <+: hd2 :=
          ih s (fun hm => hc (List.mem_cons_of_mem _ hm)) hp2 hd2 tl2 hr
        exact List.cons_prefix_cons.mpr ⟨rfl, hm2⟩

lemma exists_line_of_contains (c : Char) (m : PyStr) (hm : m ≠ []) (hc : c ∉ m) :
    ∀ s : PyStr, m <:+: s → ∃ l, l ∈ splitOnChar c s ∧ m <:+: l := by
  intro s
  induction s with
  | nil =>
    intro h
    exact absurd (List.infix_nil.mp h) hm
  | cons x xs ih =>
    intro h
    rcases List.infix_cons_iff.mp h with hp | hx
    · cases m with
      | nil => exact absurd rfl hm
      | cons y m2 =>
        obtain ⟨hyx, hp2⟩ := List.cons_prefix_cons.mp hp
        subst hyx
        have hyc : ¬ y = c := fun h2 => hc (h2 ▸ List.mem_cons_self y m2)
        cases hr : splitOnChar c xs with
        | nil => exact absurd hr (splitOnChar_ne_nil c xs)
        | cons hd tl =>
          have hs2 : splitOnChar c (y :: xs) = (y :: hd) :: tl := by
            rw [splitOnChar]
            simp [hyc, hr]
          have hm2 : m2 <+: hd :=
            prefix_into_head c m2 xs (fun hmem => hc (List.mem_cons_of_mem _ hmem))
              hp2 hd tl hr
          refine ⟨y :: hd, ?_, ?_⟩
          · rw [hs2]
            exact List.mem_cons_self _ _
          · exact (List.cons_prefix_cons.mpr ⟨rfl, hm2⟩).isInfix
    · obtain ⟨l, hl, hml⟩ := ih hx
      by_cases hxc : x = c
      · subst hxc
        have hs2 : splitOnChar x (x :: xs) = [] :: splitOnChar x xs := by
          rw [splitOnChar]
          simp
        exact ⟨l, by rw [hs2]; exact List.mem_cons_of_mem _ hl, hml⟩
      · cases hr : splitOnChar c xs with
        | nil => exact absurd hr (splitOnChar_ne_nil c xs)
        | cons hd tl =>
          have hs2 : splitOnChar c (x :: xs) = (x :: hd) :: tl := by
            rw [splitOnChar]
            simp [hxc, hr]
          rw [hr] at hl
          rcases List.mem_cons.mp hl with rfl | hltl
          · refine ⟨x :: l, ?_, List.infix_cons hml⟩
            rw [hs2]
            exact List.mem_cons_self _ _
          · exact ⟨l, by rw [hs2]; exact List.mem_cons_of_mem _ hltl, hml⟩

lemma getLast?_splitOnChar_append (c : Char) (after : PyStr) :
    ∀ pre : PyStr,
      (splitOnChar c (pre ++ c :: after)).getLast? = (splitOnChar c after).getLast? := by
  intro pre
  induction pre with
  | nil =>
    have hs2 : splitOnChar c ([] ++ c :: after) = [] :: splitOnChar c after := by
      rw [List.nil_append, splitOnChar]
      simp
    rw [hs2, getLast?_cons_of_ne_nil _ (splitOnChar_ne_nil c after)]
  | cons x pre ih =>
    by_cases hxc : x = c
    · subst hxc
      have hs2 : splitOnChar x ((x :: pre) ++ x :: after)
          = [] :: splitOnChar x (pre ++ x :: after) := by
        rw [List.cons_append, splitOnChar]
        simp
      rw [hs2, getLast?_cons_of_ne_nil _ (splitOnChar_ne_nil _ _), ih]
    · cases hr : splitOnChar c (pre ++ c :: after) with
      | nil => exact absurd hr (splitOnChar_ne_nil _ _)
      | cons hd tl =>
        have hs2 : splitOnChar c ((x :: pre) ++ c :: after) = (x :: hd) :: tl := by
          rw [List.cons_append, splitOnChar]
          simp [hxc, hr]
        have htl : tl ≠ [] := by
          have h2 := two_le_length_splitOnChar c (pre ++ c :: after)
            (List.mem_append_right _ (List.mem_cons_self c after))
          rw [hr] at h2
          intro hteq
          rw [hteq] at h2
          simp at h2
        rw [hs2, getLast?_cons_of_ne_nil _ htl, ← getLast?_cons_of_ne_nil hd htl, ← hr,
          ih]

lemma exists_last_sep (c : Char) :
    ∀ l : PyStr, c ∈ l → ∃ pre after, l = pre ++ c :: after ∧ c ∉ after := by
  intro l
  induction l with
  | nil => intro h; cases h
  | cons x xs ih =>
    intro h
    by_cases hx : c ∈ xs
    · obtain ⟨p, a, heq, ha⟩ := ih hx
      exact ⟨x :: p, a, by rw [List.cons_append, ← heq], ha⟩
    · have hxc : x = c := by
        rcases List.mem_cons.mp h with h1 | h2
        · exact h1.symm
        · exact absurd h2 hx
      exact ⟨[], xs, by rw [hxc, List.nil_append], hx⟩

lemma lastColonPart_no_colon (l : PyStr) (h : ':' ∉ l) : lastColonPart l = l := by
  rw [lastColonPart, splitOnChar_eq_singleton _ _ h]
  rfl

lemma lastColonPart_append (pre after : PyStr) (h : ':' ∉ after) :
    lastColonPart (pre ++ ':' :: after) = after := by
  rw [lastColonPart, List.getLastD_eq_getLast?, getLast?_splitOnChar_append,
    splitOnChar_eq_singleton _ _ h]
  rfl

/-! ### `clean_analysis_result` (src/app.py:33-78) -/

/-- The value found under `investment_debate_state`: either a dictionary
containing a `judge_decision` entry (rendered via f-string, hence a string
here), or anything else together with its truthiness. -/
inductive DebateVal
  | dictWithJudge (judge : PyStr)
  | otherDebate (truthy : Bool)
deriving DecidableEq

/-- The analysis values `clean_analysis_result` distinguishes: Python
`None`, a dictionary containing a `messages` key (plus the optional named
report sections and the optional debate sub-structure), a plain string, an
object with a `.content` attribute, or anything else. A message in the
`messages` collection is `some c` when it exposes textual content (either
a `.content` attribute or a `content` dictionary entry) and `none` when it
does not (such messages are skipped). -/
inductive AVal
  | null
  | dictWithMessages (messages : List (Option PyStr))
      (market sentiment news fundamentals : Option PyStr)
      (debate : Option DebateVal)
  | str (s : PyStr)
  | objWithContent (content : PyStr)
  | other (repr : PyStr) (truthy : Bool)
deriving DecidableEq

/-- Python truthiness of an `AVal` (`if not result`). A dictionary holding
a `messages` key is nonempty, hence truthy. -/
def AVal.truthy : AVal → Bool
  | .null => false
  | .dictWithMessages _ _ _ _ _ _ => true
  | .str s => !s.isEmpty
  | .objWithContent _ => true
  | .other _ t => t

/-- `f"\n\n## {title}\n"`, the heading prepended to a report section. -/
def sectionHeading (title : String) : PyStr := ("\n\n## " ++ title ++ "\n").toList

/-- `clean_analysis_result` (src/app.py:33-78). -/
def clean_analysis_result (result : AVal) : Option PyStr :=
  if result.truthy then
    match result with
    | .null => none
    | .dictWithMessages msgs market sentiment news fundamentals debate =>
      let ct0 : List PyStr := msgs.filterMap id
      let ct1 := match market with
        | some v => if v.isEmpty then ct0 else ct0 ++ [sectionHeading "Market Report" ++ v]
        | none => ct0
      let ct2 := match sentiment with
        | some v => if v.isEmpty then ct1 else ct1 ++ [sectionHeading "Sentiment Report" ++ v]
        | none => ct1
      let ct3 := match news with
        | some v => if v.isEmpty then ct2 else ct2 ++ [sectionHeading "News Report" ++ v]
        | none => ct2
      let ct4 := match fundamentals with
        | some v => if v.isEmpty then ct3 else ct3 ++ [sectionHeading "Fundamentals Report" ++ v]
        | none => ct3
      let ct5 := match debate with
        | some (.dictWithJudge j) => ct4 ++ [sectionHeading "Investment Decision" ++ j]
        | _ => ct4
      some (List.intercalate ['\n'] ct5)
    | .str s => some s
    | .objWithContent c => some c
    | .other r _ => some r
  else none

/-- One named report section as described by the specification: present and
non-empty sections contribute a heading plus their text, others nothing. -/
def optSectionPart (title : String) : Option PyStr → List PyStr
  | some v => if v.isEmpty then [] else [sectionHeading title ++ v]
  | none => []

/-- The judge-decision section contributed by an investment-debate
sub-structure carrying a `judge_decision` field. -/
def judgePart : Option DebateVal → List PyStr
  | some (.dictWithJudge j) => [sectionHeading "Investment Decision" ++ j]
  | _ => []

/-! ### The job record and the analysis flow (src/app.py:192-377) -/

/-- The `status` values stored in an `analysis_progress` entry. -/
inductive Status
  | starting
  | analyzing
  | completed
  | failed
  | timeout
deriving DecidableEq

/-- One `analysis_progress[analysis_id]` dictionary. `Option` fields model
dictionary keys that are absent until first assigned; in particular the
code never creates an `error` key, so the `error` field (kept here so that
its absence can be stated) is `none` in every reachable record. Timestamps
are modelled as natural numbers (seconds). -/
structure Record where
  symbol : String
  date : String
  status : Status
  progress : Nat
  current_agent : String
  agents_completed : List String
  started_at : Nat
  messages : List String
  completed_at : Option Nat := none
  duration_seconds : Option Nat := none
  duration_formatted : Option String := none
  result : Option (Option PyStr) := none
  decision : Option (Option PyStr) := none
  error : Option String := none
deriving DecidableEq

/-- The record created at submission (src/app.py:222-231). -/
def initialRecord (symbol date : String) (now : Nat) : Record :=
  { symbol := symbol
    date := date
    status := .starting
    progress := 0
    current_agent := "Initializing"
    agents_completed := []
    started_at := now
    messages := ["Starting multi-agent analysis..."] }

/-- The scripted progress updates before the analysis is launched
(src/app.py:234-255): status `analyzing`, progress driven to 60, four
messages appended. -/
def progressUpdates (r : Record) : Record :=
  { r with
    status := .analyzing
    progress := 60
    current_agent := "Sentiment Analyst"
    messages := r.messages ++
      ["Initializing analysis for " ++ r.symbol,
       "Fundamental analyst working...",
       "Technical analysis in progress...",
       "Sentiment analysis running..."] }

/-- The completion channel of the executor thread: the instant (seconds
from submission) at which `ta_graph.propagate` finishes (`none` = never),
and the value `run_analysis` publishes to `result_queue` at that instant
(`.ok` with the raw result/decision pair, or `.error` with the exception
message). -/
structure Channel where
  finish : Option Nat
  payload : Except String (AVal × DVal)

/-- The body of the executor thread `run_analysis` (src/app.py:277-287):
it only publishes its outcome to the queue; it never mutates the
`analysis_progress` record. -/
def run_analysis (propagate : Except String (AVal × DVal)) (rec : Record)
    (queue : Option (Except String (AVal × DVal))) :
    Record × Option (Except String (AVal × DVal)) :=
  match propagate with
  | .ok rd => (rec, some (.ok rd))
  | .error e => (rec, some (.error e))

/-- `total_timeout = 480` seconds (src/app.py:296). -/
def total_timeout : Nat := 480

/-- `check_interval = 15` seconds (src/app.py:297). -/
def check_interval : Nat := 15

/-- `analysis_thread.is_alive()` at a given instant. -/
def threadAlive (finish : Option Nat) (now : Nat) : Bool :=
  match finish with
  | none => true
  | some t => decide (now < t)

/-- The heartbeat message appended while the analysis is still running
(src/app.py:306). -/
def heartbeatMsg (e : Nat) : String :=
  "Analysis still running... (" ++ toString e ++ "s elapsed)"

/-- The supervisor wait loop (src/app.py:300-307): while the budget is not
exhausted and the thread is alive, join for one poll interval, advance the
elapsed counter, and append a heartbeat when the thread is still alive and
budget remains. Returns the final elapsed counter and message log. -/
def waitLoop (finish : Option Nat) (elapsed : Nat) (msgs : List String) :
    Nat × List String :=
  if h : elapsed < total_timeout ∧ threadAlive finish elapsed = true then
    let e2 := elapsed + check_interval
    let msgs2 := if threadAlive finish e2 = true ∧ e2 < total_timeout
      then msgs ++ [heartbeatMsg e2] else msgs
    waitLoop finish e2 msgs2
  else (elapsed, msgs)
termination_by total_timeout - elapsed
decreasing_by
  simp only [total_timeout, check_interval] at *
  omega

/-- The outcome the supervisor decides between (src/app.py:309-335). -/
inductive Outcome
  | success (result : AVal) (decision : DVal)
  | failure (message : String)
  | timedOut
deriving DecidableEq

structure SupervisorResult where
  outcome : Outcome
  messages : List String
  consumed : Bool
  elapsed : Nat

/-- The timeout supervisor (src/app.py:300-335): run the wait loop; if the
thread is still alive the outcome is `timedOut` and the queue is not
consumed; otherwise the queue is consumed and its payload yields the
success or failure outcome. -/
def superviseAnalysis (ch : Channel) (msgs0 : List String) : SupervisorResult :=
  let r := waitLoop ch.finish 0 msgs0
  if threadAlive ch.finish r.1 then ⟨.timedOut, r.2, false, r.1⟩
  else
    match ch.payload with
    | .ok (res, dec) => ⟨.success res dec, r.2, true, r.1⟩
    | .error e => ⟨.failure e, r.2, true, r.1⟩

/-- The HTTP-level result of the synchronous `/api/analyze` call. -/
inductive Response
  | configError
  | timeoutResponse
  | failureResponse (message : String)
  | completedResponse (decision : Option PyStr) (result : Option PyStr)
deriving DecidableEq

/-- `not openai_key or openai_key == "test_key_demo_only"` (src/app.py:259). -/
def invalid_key (key : String) : Bool :=
  key = "" || key = "test_key_demo_only"

/-- The synchronous `/api/analyze` handler `analyze_stock`
(src/app.py:212-377), from record creation onwards: returns the final
record, the HTTP response, and whether the executor thread was spawned.
`now` is the submission instant; the completion instant is `now` plus the
supervisor's elapsed counter. -/
def analyze_stock (symbol date key : String) (ch : Channel) (now : Nat) :
    Record × Response × Bool :=
  let rec1 := progressUpdates (initialRecord symbol date now)
  if invalid_key key then
    ({ rec1 with
        status := .failed
        messages := rec1.messages ++
          ["Invalid OpenAI API key - please configure a valid API key"] },
     .configError, false)
  else
    let s := superviseAnalysis ch rec1.messages
    match s.outcome with
    | .timedOut =>
      ({ rec1 with
          status := .timeout
          messages := s.messages ++ ["Analysis timed out after 8 minutes"] },
       .timeoutResponse, true)
    | .failure e => ({ rec1 with messages := s.messages }, .failureResponse e, true)
    | .success res dec =>
      let ctime := now + s.elapsed
      let dur := ctime - rec1.started_at
      ({ rec1 with
          status := .completed
          progress := 100
          current_agent := "Completed"
          completed_at := some ctime
          duration_seconds := some dur
          duration_formatted := some (toString (dur / 60) ++ "m " ++ toString (dur % 60) ++ "s")
          messages := s.messages ++ ["Analysis completed successfully!"]
          result := some (clean_analysis_result res)
          decision := some (clean_decision_result dec) },
       .completedResponse (clean_decision_result dec) (clean_analysis_result res), true)

/-! ### The registry (`analysis_progress`) and the history endpoint -/

/-- The process-wide `analysis_progress` dictionary: insertion-ordered
association list keyed by analysis id. -/
abbrev Registry := List (String × Record)

/-- Python dictionary assignment `analysis_progress[analysis_id] = ...`:
replaces the value in place if the key exists (keeping its position),
otherwise appends the new binding. -/
def registryInsert : Registry → String → Record → Registry
  | [], k, v => [(k, v)]
  | p :: rest, k, v =>
    if p.1 = k then (k, v) :: rest
    else p :: registryInsert rest k v

/-- Python dictionary lookup. -/
def registryGet (m : Registry) (k : String) : Option Record :=
  (m.find? (fun p => p.1 = k)).map (fun p => p.2)

/-- Record creation at submission (src/app.py:221-231): a plain dictionary
assignment of the freshly initialized record. -/
def createRecord (m : Registry) (id symbol date : String) (now : Nat) : Registry :=
  registryInsert m id (initialRecord symbol date now)

/-- One entry of the `/api/history` response (src/app.py:447-457). The
`decision` field is `data.get('decision', 'Unknown')`: the string
`"Unknown"` when the record has no `decision` key, otherwise the stored
value (which may be Python `None`, modelled as `none`). -/
structure HistEntry where
  analysis_id : String
  symbol : String
  date : String
  decision : Option PyStr
  started_at : Nat
  completed_at : Option Nat
  duration_seconds : Nat
  duration_formatted : String
  messages : List String
deriving DecidableEq

def decisionField (r : Record) : Option PyStr :=
  match r.decision with
  | none => some "Unknown".toList
  | some v => v

def histEntry (id : String) (r : Record) : HistEntry :=
  { analysis_id := id
    symbol := r.symbol
    date := r.date
    decision := decisionField r
    started_at := r.started_at
    completed_at := r.completed_at
    duration_seconds := r.duration_seconds.getD 0
    duration_formatted := r.duration_formatted.getD "Unknown"
    messages := r.messages }

/-- The sort key `x.get('completed_at', '')` (src/app.py:460); a missing
completion time sorts as the smallest key. -/
def histKey (e : HistEntry) : Nat := e.completed_at.getD 0

/-- `a` may come before `b` in the descending sort. -/
def histOrder : HistEntry → HistEntry → Prop := fun a b => histKey b ≤ histKey a

instance : DecidableRel histOrder := fun _ _ => Nat.decLe _ _

instance : IsTotal HistEntry histOrder :=
  ⟨fun a b => Nat.le_total (histKey b) (histKey a)⟩

instance : IsTrans HistEntry histOrder :=
  ⟨fun _ _ _ hab hbc => Nat.le_trans hbc hab⟩

/-- The synthetic sample entry returned when no completed analysis exists
(src/app.py:464-476); its timestamps are represented as 0 and 300 seconds. -/
def sampleEntry : HistEntry :=
  { analysis_id := "sample_001"
    symbol := "AAPL"
    date := "2025-08-27"
    decision := some "BUY".toList
    started_at := 0
    completed_at := some 300
    duration_seconds := 300
    duration_formatted := "5m 0s"
    messages := ["Sample analysis - run a real analysis to see your history"] }

/-- `/api/history` (src/app.py:439-486): project the records with status
`completed`, sort by completion time descending (Python's sort is stable;
`reverse=True` keeps the original order of equal keys), return the sample
marker when nothing completed yet, else the first 50 entries. The second
component is the `is_sample` flag. -/
def analysisHistory (regs : Registry) : List HistEntry × Bool :=
  let completed := (regs.filter (fun p => decide (p.2.status = Status.completed))).map
    (fun p => histEntry p.1 p.2)
  let sorted := List.insertionSort histOrder completed
  if sorted.isEmpty then ([sampleEntry], true)
  else (sorted.take 50, false)

/-! ### Closed form of the supervisor loop -/

/-- The candidate heartbeat instants from elapsed counter `e`: one poll
interval apart, up to and including the budget. -/
def hbTimes (e : Nat) : List Nat :=
  List.range' (e + check_interval) ((total_timeout - e) / check_interval) check_interval

/-- The heartbeat messages the wait loop appends from elapsed counter `e`
onwards: one for every candidate instant at which the thread is still
alive and budget remains. -/
def hbClosed (finish : Option Nat) (e : Nat) : List String :=
  ((hbTimes e).filter
    (fun x => threadAlive finish x && decide (x < total_timeout))).map heartbeatMsg

lemma threadAlive_mono {finish : Option Nat} {a b : Nat} (hab : a ≤ b)
    (h : threadAlive finish a = false) : threadAlive finish b = false := by
  cases finish with
  | none => simp [threadAlive] at h
  | some t =>
    simp only [threadAlive, decide_eq_false_iff_not, Nat.not_lt] at h ⊢
    omega

lemma hbTimes_succ {e : Nat} (h15 : check_interval ∣ e) (he : e < total_timeout) :
    hbTimes e = (e + check_interval) :: hbTimes (e + check_interval) := by
  obtain ⟨k, hk⟩ := h15
  have hT : total_timeout = 480 := rfl
  have hC : check_interval = 15 := rfl
  rw [hC] at hk
  have h1 : total_timeout - e = (total_timeout - (e + check_interval)) + check_interval := by
    omega
  rw [hbTimes, h1, Nat.add_div_right _ (by rw [hC]; omega), List.range'_succ, hbTimes]

lemma hbClosed_step (finish : Option Nat) {e : Nat} (h15 : check_interval ∣ e)
    (he : e < total_timeout) :
    hbClosed finish e =
      (if threadAlive finish (e + check_interval) = true ∧
          e + check_interval < total_timeout
        then [heartbeatMsg (e + check_interval)] else [])
        ++ hbClosed finish (e + check_interval) := by
  rw [hbClosed, hbTimes_succ h15 he, List.filter_cons]
  by_cases h1 : threadAlive finish (e + check_interval) = true <;>
    by_cases h2 : e + check_interval < total_timeout <;>
      simp [h1, h2, hbClosed]

lemma hbClosed_of_not_alive (finish : Option Nat) {e : Nat}
    (h : threadAlive finish e = false) : hbClosed finish e = [] := by
  rw [hbClosed]
  have hf : (hbTimes e).filter
      (fun x => threadAlive finish x && decide (x < total_timeout)) = [] := by
    rw [List.filter_eq_nil_iff]
    intro x hx
    have hxe : e ≤ x := by
      rw [hbTimes] at hx
      obtain ⟨i, _, rfl⟩ := List.mem_range'.mp hx
      omega
    rw [threadAlive_mono hxe h]
    simp
  rw [hf]
  rfl

lemma hbClosed_at_end (finish : Option Nat) : hbClosed finish total_timeout = [] := by
  have h0 : total_timeout - total_timeout = 0 := Nat.sub_self _
  rw [hbClosed, hbTimes, h0]
  rfl

/-- The wait loop appends exactly the closed-form heartbeat list, and the
liveness of the thread at the final elapsed counter agrees with its
liveness at the full budget. -/
lemma waitLoop_spec_aux (finish : Option Nat) :
    ∀ (n e : Nat) (msgs : List String), total_timeout - e = n →
      check_interval ∣ e → e ≤ total_timeout →
      (waitLoop finish e msgs).2 = msgs ++ hbClosed finish e ∧
      threadAlive finish (waitLoop finish e msgs).1 =
        threadAlive finish total_timeout := by
  intro n
  induction n using Nat.strong_induction_on with
  | _ n IH =>
    intro e msgs hn hdvd hle
    have hT : total_timeout = 480 := rfl
    have hC : check_interval = 15 := rfl
    by_cases hc : e < total_timeout ∧ threadAlive finish e = true
    · have hstep : waitLoop finish e msgs =
          waitLoop finish (e + check_interval)
            (if threadAlive finish (e + check_interval) = true ∧
                e + check_interval < total_timeout
              then msgs ++ [heartbeatMsg (e + check_interval)] else msgs) := by
        rw [waitLoop, dif_pos hc]
      have hdvd2 : check_interval ∣ (e + check_interval) := Nat.dvd_add hdvd dvd_rfl
      have hk2 := hdvd
      obtain ⟨k, hk⟩ := hk2
      rw [hC] at hk
      have hle2 : e + check_interval ≤ total_timeout := by omega
      have hdec : total_timeout - (e + check_interval) < n := by omega
      have IH2 := IH _ hdec (e + check_interval)
        (if threadAlive finish (e + check_interval) = true ∧
            e + check_interval < total_timeout
          then msgs ++ [heartbeatMsg (e + check_interval)] else msgs)
        rfl hdvd2 hle2
      obtain ⟨ih1, ih2⟩ := IH2
      refine ⟨?_, by rw [hstep]; exact ih2⟩
      rw [hstep, ih1, hbClosed_step finish hdvd hc.1]
      by_cases hh : threadAlive finish (e + check_interval) = true ∧
          e + check_interval < total_timeout
      · rw [if_pos hh, if_pos hh, List.append_assoc]
      · rw [if_neg hh, if_neg hh, List.nil_append]
    · have hstep : waitLoop finish e msgs = (e, msgs) := by
        rw [waitLoop, dif_neg hc]
      rw [hstep]
      rcases Decidable.not_and_iff_or_not.mp hc with h1 | h2
      · have he : e = total_timeout := by omega
        subst he
        exact ⟨by rw [hbClosed_at_end, List.append_nil], rfl⟩
      · have hfalse : threadAlive finish e = false := by
          cases hval : threadAlive finish e
          · rfl
          · exact absurd hval h2
        refine ⟨by rw [hbClosed_of_not_alive finish hfalse, List.append_nil], ?_⟩
        rw [hfalse, threadAlive_mono hle hfalse]

/-- `waitLoop` from a fresh elapsed counter. -/
lemma waitLoop_spec (finish : Option Nat) (msgs : List String) :
    (waitLoop finish 0 msgs).2 = msgs ++ hbClosed finish 0 ∧
    threadAlive finish (waitLoop finish 0 msgs).1 =
      threadAlive finish total_timeout :=
  waitLoop_spec_aux finish (total_timeout - 0) 0 msgs rfl ⟨0, rfl⟩ (Nat.zero_le _)

/-! ### Claim C1 -/

lemma isEmpty_false_of_ne_nil {s : PyStr} (h : s ≠ []) : s.isEmpty = false := by
  cases s with
  | nil => exact absurd rfl h
  | cons a t => rfl

lemma ne_nil_of_containsMarker {s : PyStr} (h : containsMarker s = true) : s ≠ [] := by
  intro h0
  rw [h0] at h
  exact absurd h (by decide)

/-- C1 (amended: a non-null plain-text input with no marker is returned
unchanged only when it is non-empty; the empty string is falsy and maps to
null, see C10): `clean_decision_result` returns null on null input,
returns marker-free textual content unchanged, and on content containing
the marker phrase returns the substring after the last colon of a line
containing the marker, trimmed. -/
theorem clean_decision_result_spec :
    (clean_decision_result DVal.null = none) ∧
    (∀ s : PyStr, s ≠ [] → containsMarker s = false →
      clean_decision_result (DVal.str s) = some s) ∧
    (∀ c : PyStr, containsMarker c = false →
      clean_decision_result (DVal.objWithContent c) = some c) ∧
    (∀ s : PyStr, containsMarker s = true →
      ∃ l, l ∈ splitOnChar '\n' s ∧ containsMarker l = true ∧
        ((∃ pre after, l = pre ++ ':' :: after ∧ ':' ∉ after ∧
            clean_decision_result (DVal.str s) = some (pyStrip after) ∧
            clean_decision_result (DVal.objWithContent s) = some (pyStrip after)) ∨
         (':' ∉ l ∧
            clean_decision_result (DVal.str s) = some (pyStrip l) ∧
            clean_decision_result (DVal.objWithContent s) = some (pyStrip l)))) := by
  refine ⟨rfl, ?_, ?_, ?_⟩
  · intro s hs hm
    simp [clean_decision_result, DVal.truthy, isEmpty_false_of_ne_nil hs,
      extractDecision, hm]
  · intro c hm
    simp [clean_decision_result, DVal.truthy, extractDecision, hm]
  · intro s hmark
    have hinf : marker <:+: s := of_decide_eq_true hmark
    obtain ⟨l, hl, hml⟩ :=
      exists_line_of_contains '\n' marker (by decide) (by decide) s hinf
    have hsome : ((splitOnChar '\n' s).find? containsMarker).isSome :=
      List.find?_isSome.mpr ⟨l, hl, decide_eq_true hml⟩
    obtain ⟨l2, hl2⟩ := Option.isSome_iff_exists.mp hsome
    have hl2mem : l2 ∈ splitOnChar '\n' s := List.mem_of_find?_eq_some hl2
    have hl2mark : containsMarker l2 = true := List.find?_some hl2
    have hne : s ≠ [] := ne_nil_of_containsMarker hmark
    have hstr : clean_decision_result (DVal.str s) =
        some (pyStrip (lastColonPart l2)) := by
      simp [clean_decision_result, DVal.truthy, isEmpty_false_of_ne_nil hne,
        extractDecision, hmark, hl2]
    have hobj : clean_decision_result (DVal.objWithContent s) =
        some (pyStrip (lastColonPart l2)) := by
      simp [clean_decision_result, DVal.truthy, extractDecision, hmark, hl2]
    refine ⟨l2, hl2mem, hl2mark, ?_⟩
    by_cases hcolon : ':' ∈ l2
    · obtain ⟨pre, after, heq, hafter⟩ := exists_last_sep ':' l2 hcolon
      refine Or.inl ⟨pre, after, heq, hafter, ?_, ?_⟩
      · rw [hstr, heq, lastColonPart_append pre after hafter]
      · rw [hobj, heq, lastColonPart_append pre after hafter]
    · refine Or.inr ⟨hcolon, ?_, ?_⟩
      · rw [hstr, lastColonPart_no_colon l2 hcolon]
      · rw [hobj, lastColonPart_no_colon l2 hcolon]

/-- Witness for C1 at concrete inputs: marker-free text is returned
unchanged, and a concrete marker line exists for the marker case. -/
theorem clean_decision_result_spec_witness :
    (clean_decision_result (DVal.str "hold the position".toList)
      = some "hold the position".toList) ∧
    (∃ l, l ∈ splitOnChar '\n'
        "Analysis done\nFINAL TRANSACTION PROPOSAL: BUY".toList ∧
      containsMarker l = true ∧
      ((∃ pre after, l = pre ++ ':' :: after ∧ ':' ∉ after ∧
          clean_decision_result
            (DVal.str "Analysis done\nFINAL TRANSACTION PROPOSAL: BUY".toList)
            = some (pyStrip after) ∧
          clean_decision_result
            (DVal.objWithContent
              "Analysis done\nFINAL TRANSACTION PROPOSAL: BUY".toList)
            = some (pyStrip after)) ∨
       (':' ∉ l ∧
          clean_decision_result
            (DVal.str "Analysis done\nFINAL TRANSACTION PROPOSAL: BUY".toList)
            = some (pyStrip l) ∧
          clean_decision_result
            (DVal.objWithContent
              "Analysis done\nFINAL TRANSACTION PROPOSAL: BUY".toList)
            = some (pyStrip l)))) :=
  ⟨clean_decision_result_spec.2.1 "hold the position".toList (by decide) (by decide),
   clean_decision_result_spec.2.2.2
     "Analysis done\nFINAL TRANSACTION PROPOSAL: BUY".toList (by decide)⟩

/-- Counterexample to C1 as stated: the empty string is a non-null
plain-text input with no marker, yet it is not returned unchanged — the
truthiness check maps it to null. -/
theorem clean_decision_result_empty_cex :
    clean_decision_result (DVal.str []) = none ∧
    clean_decision_result (DVal.str []) ≠ some [] := by
  constructor
  · decide
  · decide

/-! ### Claims C2 and C10 -/

/-- C2 (amended: a plain string is returned unchanged only when non-empty;
the empty string is falsy and maps to null, see C10): `clean_analysis_result`
returns null on null, concatenates message contents followed by the present
and non-empty named report sections under their headings followed by the
judge-decision section, returns non-empty plain strings unchanged, and
falls back to the textual representation otherwise. -/
theorem clean_analysis_result_spec :
    (clean_analysis_result AVal.null = none) ∧
    (∀ s : PyStr, s ≠ [] → clean_analysis_result (AVal.str s) = some s) ∧
    (∀ msgs market sentiment news fundamentals debate,
      clean_analysis_result
        (AVal.dictWithMessages msgs market sentiment news fundamentals debate)
      = some (List.intercalate ['\n']
          (msgs.filterMap id
            ++ optSectionPart "Market Report" market
            ++ optSectionPart "Sentiment Report" sentiment
            ++ optSectionPart "News Report" news
            ++ optSectionPart "Fundamentals Report" fundamentals
            ++ judgePart debate))) ∧
    (∀ c : PyStr, clean_analysis_result (AVal.objWithContent c) = some c) ∧
    (∀ r : PyStr, clean_analysis_result (AVal.other r true) = some r) := by
  refine ⟨rfl, ?_, ?_, fun c => rfl, fun r => rfl⟩
  · intro s hs
    simp [clean_analysis_result, AVal.truthy, isEmpty_false_of_ne_nil hs]
  · intro msgs market sentiment news fundamentals debate
    simp only [clean_analysis_result, AVal.truthy, if_true]
    cases market <;> cases sentiment <;> cases news <;> cases fundamentals <;>
        rcases debate with _ | j | t <;>
      simp only [optSectionPart, judgePart] <;>
      first
        | (split_ifs <;> simp [List.append_assoc])
        | simp [List.append_assoc]

/-- Witness for C2 at concrete inputs: a non-empty plain string and a
structured result with messages, one present non-empty section, one absent
section, one present-but-empty section and a judge decision. -/
theorem clean_analysis_result_spec_witness :
    clean_analysis_result (AVal.str "plain report".toList)
      = some "plain report".toList ∧
    clean_analysis_result
      (AVal.dictWithMessages
        [some "hello".toList, none, some "world".toList]
        (some "bullish".toList) none (some []) none
        (some (DebateVal.dictWithJudge "BUY".toList)))
      = some (List.intercalate ['\n']
          ([some "hello".toList, none, some "world".toList].filterMap id
            ++ optSectionPart "Market Report" (some "bullish".toList)
            ++ optSectionPart "Sentiment Report" none
            ++ optSectionPart "News Report" (some [])
            ++ optSectionPart "Fundamentals Report" none
            ++ judgePart (some (DebateVal.dictWithJudge "BUY".toList)))) :=
  ⟨clean_analysis_result_spec.2.1 "plain report".toList (by decide),
   clean_analysis_result_spec.2.2.1
     [some "hello".toList, none, some "world".toList]
     (some "bullish".toList) none (some []) none
     (some (DebateVal.dictWithJudge "BUY".toList))⟩

/-- Counterexample to C2 as stated: the empty string is a plain string but
is not returned unchanged — the truthiness check maps it to null. -/
theorem clean_analysis_result_empty_cex :
    clean_analysis_result (AVal.str []) = none ∧
    clean_analysis_result (AVal.str []) ≠ some [] := by
  constructor
  · decide
  · decide

/-- C10: every falsy raw input — the empty string in particular, and null
itself — is mapped to null by both normalizers, because the null check is
a truthiness check (`if not result` / `if not decision`). -/
theorem falsy_inputs_normalize_to_none :
    (∀ v : AVal, v.truthy = false → clean_analysis_result v = none) ∧
    (∀ d : DVal, d.truthy = false → clean_decision_result d = none) ∧
    clean_analysis_result (AVal.str []) ≠ some [] ∧
    clean_decision_result (DVal.str []) ≠ some [] := by
  refine ⟨?_, ?_, by decide, by decide⟩
  · intro v hv
    simp [clean_analysis_result, hv]
  · intro d hd
    simp [clean_decision_result, hd]

/-- Witness for C10 at concrete falsy non-null inputs: the empty string
and a falsy object (such as Python `0` or `[]`). -/
theorem falsy_inputs_normalize_to_none_witness :
    clean_analysis_result (AVal.str []) = none ∧
    clean_decision_result (DVal.str []) = none ∧
    clean_analysis_result (AVal.other "0".toList false) = none ∧
    clean_decision_result (DVal.other "0".toList false) = none :=
  ⟨falsy_inputs_normalize_to_none.1 (AVal.str []) rfl,
   falsy_inputs_normalize_to_none.2.1 (DVal.str []) rfl,
   falsy_inputs_normalize_to_none.1 (AVal.other "0".toList false) rfl,
   falsy_inputs_normalize_to_none.2.1 (DVal.other "0".toList false) rfl⟩

/-! ### Claim C3 -/

/-- C3: the synchronous wait loop polls one interval at a time while budget
remains and the analysis is undelivered, appending exactly the heartbeat
messages (one per poll instant at which the thread is still alive and
budget remains, reporting elapsed seconds); a delivery within the budget is
consumed and yields the matching success or failure outcome; an exhausted
budget with no delivery yields `timedOut`, does not consume the channel,
and leaves the executor thread alive. -/
theorem timeout_supervisor_spec (ch : Channel) (msgs0 : List String) :
    ((ch.finish = none ∨ ∃ t, ch.finish = some t ∧ total_timeout < t) →
      (superviseAnalysis ch msgs0).outcome = Outcome.timedOut ∧
      (superviseAnalysis ch msgs0).messages = msgs0 ++ hbClosed ch.finish 0 ∧
      (superviseAnalysis ch msgs0).consumed = false ∧
      threadAlive ch.finish total_timeout = true) ∧
    (∀ t, ch.finish = some t → t ≤ total_timeout →
      (superviseAnalysis ch msgs0).consumed = true ∧
      (superviseAnalysis ch msgs0).messages = msgs0 ++ hbClosed ch.finish 0 ∧
      (∀ res dec, ch.payload = Except.ok (res, dec) →
        (superviseAnalysis ch msgs0).outcome = Outcome.success res dec) ∧
      (∀ e, ch.payload = Except.error e →
        (superviseAnalysis ch msgs0).outcome = Outcome.failure e)) := by
  obtain ⟨hmsgs, halive⟩ := waitLoop_spec ch.finish msgs0
  constructor
  · intro hcase
    have h480 : threadAlive ch.finish total_timeout = true := by
      rcases hcase with hnone | ⟨t, ht, htgt⟩
      · rw [hnone]; rfl
      · rw [ht]
        simp only [threadAlive, decide_eq_true_eq]
        exact htgt
    have hcond : threadAlive ch.finish (waitLoop ch.finish 0 msgs0).1 = true :=
      halive.trans h480
    refine ⟨?_, ?_, ?_, h480⟩ <;>
      simp [superviseAnalysis, hcond, hmsgs]
  · intro t ht hle
    have h480 : threadAlive ch.finish total_timeout = false := by
      rw [ht]
      simp only [threadAlive, decide_eq_false_iff_not, Nat.not_lt]
      exact hle
    have hcond : threadAlive ch.finish (waitLoop ch.finish 0 msgs0).1 = false :=
      halive.trans h480
    refine ⟨?_, ?_, ?_, ?_⟩
    · cases hp : ch.payload with
      | ok rd =>
        obtain ⟨res, dec⟩ := rd
        simp [superviseAnalysis, hcond, hp]
      | error e => simp [superviseAnalysis, hcond, hp]
    · cases hp : ch.payload with
      | ok rd =>
        obtain ⟨res, dec⟩ := rd
        simp [superviseAnalysis, hcond, hp, hmsgs]
      | error e => simp [superviseAnalysis, hcond, hp, hmsgs]
    · intro res dec hp
      simp [superviseAnalysis, hcond, hp]
    · intro e hp
      simp [superviseAnalysis, hcond, hp]

/-- Witness for C3: a thread finishing at 500s (past the 480s budget) times
out without consuming the channel; a thread finishing at 1s is consumed and
yields the success outcome. -/
theorem timeout_supervisor_spec_witness :
    (superviseAnalysis ⟨some 500, Except.ok (AVal.null, DVal.null)⟩ []).outcome
      = Outcome.timedOut ∧
    (superviseAnalysis ⟨some 500, Except.ok (AVal.null, DVal.null)⟩ []).consumed
      = false ∧
    (superviseAnalysis ⟨some 1,
        Except.ok (AVal.null, DVal.str "BUY".toList)⟩ []).outcome
      = Outcome.success AVal.null (DVal.str "BUY".toList) ∧
    (superviseAnalysis ⟨some 1,
        Except.ok (AVal.null, DVal.str "BUY".toList)⟩ []).consumed = true :=
  ⟨((timeout_supervisor_spec ⟨some 500, Except.ok (AVal.null, DVal.null)⟩ []).1
      (Or.inr ⟨500, rfl, by decide⟩)).1,
   ((timeout_supervisor_spec ⟨some 500, Except.ok (AVal.null, DVal.null)⟩ []).1
      (Or.inr ⟨500, rfl, by decide⟩)).2.2.1,
   ((timeout_supervisor_spec ⟨some 1,
        Except.ok (AVal.null, DVal.str "BUY".toList)⟩ []).2
      1 rfl (by decide)).2.2.1 AVal.null (DVal.str "BUY".toList) rfl,
   ((timeout_supervisor_spec ⟨some 1,
        Except.ok (AVal.null, DVal.str "BUY".toList)⟩ []).2
      1 rfl (by decide)).1⟩

/-! ### Claims C4, C5, C6, C8 -/

/-- A success outcome can only have been read from the channel payload. -/
lemma outcome_success_payload (ch : Channel) (msgs0 : List String)
    (res : AVal) (dec : DVal)
    (h : (superviseAnalysis ch msgs0).outcome = Outcome.success res dec) :
    ch.payload = Except.ok (res, dec) := by
  by_cases hc : threadAlive ch.finish (waitLoop ch.finish 0 msgs0).1 = true
  · simp [superviseAnalysis, hc] at h
  · cases hp : ch.payload with
    | ok rd =>
      obtain ⟨a, b⟩ := rd
      simp only [superviseAnalysis, hc, if_false, hp] at h
      injection h with h1 h2
      rw [h1, h2]
    | error e => simp [superviseAnalysis, hc, hp] at h

/-- The final job record left by a synchronous `analyze_stock` call. -/
def finalRecord (symbol date key : String) (ch : Channel) (now : Nat) : Record :=
  (analyze_stock symbol date key ch now).1

/-- C4: after the record reached the terminal `timeout` status, a late
delivery by the executor (`run_analysis` finally publishing its success or
failure) never changes the record's `status`, `result` or `decision`: the
executor writes only the result queue, so the late write is a no-op on the
record. -/
theorem late_delivery_noop (rec : Record)
    (q : Option (Except String (AVal × DVal)))
    (propagate : Except String (AVal × DVal))
    (h : rec.status = Status.timeout) :
    (run_analysis propagate rec q).1.status = Status.timeout ∧
    (run_analysis propagate rec q).1.result = rec.result ∧
    (run_analysis propagate rec q).1.decision = rec.decision ∧
    (run_analysis propagate rec q).1 = rec := by
  cases propagate <;> simp [run_analysis, h]

/-- Witness for C4: a concrete timed-out record is untouched by a late
successful delivery. -/
theorem late_delivery_noop_witness :
    (run_analysis (Except.ok (AVal.null, DVal.str "BUY".toList))
      { initialRecord "AAPL" "2025-08-27" 0 with status := Status.timeout }
      none).1
    = { initialRecord "AAPL" "2025-08-27" 0 with status := Status.timeout } :=
  (late_delivery_noop _ none _ rfl).2.2.2

/-- C5: a record whose final status is `completed` has `result` and
`decision` set to exactly the normalizers' output on the delivered raw
values, no error, progress pinned to 100, and a duration equal to the
difference between completion and start timestamps. -/
theorem completed_record_spec (symbol date key : String) (ch : Channel) (now : Nat)
    (h : (finalRecord symbol date key ch now).status = Status.completed) :
    ∃ res dec, ch.payload = Except.ok (res, dec) ∧
      (finalRecord symbol date key ch now).result
        = some (clean_analysis_result res) ∧
      (finalRecord symbol date key ch now).decision
        = some (clean_decision_result dec) ∧
      (finalRecord symbol date key ch now).error = none ∧
      (finalRecord symbol date key ch now).progress = 100 ∧
      ∃ c, (finalRecord symbol date key ch now).completed_at = some c ∧
        (finalRecord symbol date key ch now).duration_seconds
          = some (c - (finalRecord symbol date key ch now).started_at) := by
  by_cases hk : invalid_key key = true
  · simp only [finalRecord, analyze_stock] at h
    simp [hk] at h
  · cases ho : (superviseAnalysis ch
        (progressUpdates (initialRecord symbol date now)).messages).outcome with
    | timedOut =>
      simp only [finalRecord, analyze_stock] at h
      simp [hk] at h
      rw [ho] at h
      simp at h
    | failure e =>
      simp only [finalRecord, analyze_stock] at h
      simp [hk] at h
      rw [ho] at h
      simp [progressUpdates, initialRecord] at h
    | success res dec =>
      refine ⟨res, dec, outcome_success_payload _ _ _ _ ho, ?_, ?_, ?_, ?_,
        ⟨now + (superviseAnalysis ch
            (progressUpdates (initialRecord symbol date now)).messages).elapsed,
          ?_, ?_⟩⟩
      all_goals simp only [finalRecord, analyze_stock]
      all_goals simp [hk]
      all_goals (rw [ho]; try simp [progressUpdates, initialRecord])

/-- Witness for C5: a concrete channel delivering at 1s with raw result
and decision strings produces a completed record. -/
theorem completed_record_spec_witness :
    ∃ res dec,
      (Channel.mk (some 1)
        (Except.ok (AVal.str "report".toList, DVal.str "BUY".toList))).payload
        = Except.ok (res, dec) ∧
      (finalRecord "AAPL" "2025-08-27" "sk-valid"
        ⟨some 1, Except.ok (AVal.str "report".toList, DVal.str "BUY".toList)⟩
        0).result = some (clean_analysis_result res) ∧
      (finalRecord "AAPL" "2025-08-27" "sk-valid"
        ⟨some 1, Except.ok (AVal.str "report".toList, DVal.str "BUY".toList)⟩
        0).decision = some (clean_decision_result dec) ∧
      (finalRecord "AAPL" "2025-08-27" "sk-valid"
        ⟨some 1, Except.ok (AVal.str "report".toList, DVal.str "BUY".toList)⟩
        0).error = none ∧
      (finalRecord "AAPL" "2025-08-27" "sk-valid"
        ⟨some 1, Except.ok (AVal.str "report".toList, DVal.str "BUY".toList)⟩
        0).progress = 100 ∧
      ∃ c,
        (finalRecord "AAPL" "2025-08-27" "sk-valid"
          ⟨some 1, Except.ok (AVal.str "report".toList, DVal.str "BUY".toList)⟩
          0).completed_at = some c ∧
        (finalRecord "AAPL" "2025-08-27" "sk-valid"
          ⟨some 1, Except.ok (AVal.str "report".toList, DVal.str "BUY".toList)⟩
          0).duration_seconds
          = some (c - (finalRecord "AAPL" "2025-08-27" "sk-valid"
              ⟨some 1, Except.ok (AVal.str "report".toList, DVal.str "BUY".toList)⟩
              0).started_at) := by
  apply completed_record_spec
  have hcond : threadAlive (some 1)
      (waitLoop (some 1) 0
        (progressUpdates (initialRecord "AAPL" "2025-08-27" 0)).messages).1
      = false :=
    (waitLoop_spec (some 1)
      (progressUpdates (initialRecord "AAPL" "2025-08-27" 0)).messages).2.trans
        (by decide)
  have ho : (superviseAnalysis
      ⟨some 1, Except.ok (AVal.str "report".toList, DVal.str "BUY".toList)⟩
      (progressUpdates (initialRecord "AAPL" "2025-08-27" 0)).messages).outcome
      = Outcome.success (AVal.str "report".toList) (DVal.str "BUY".toList) := by
    simp [superviseAnalysis, hcond]
  simp only [finalRecord, analyze_stock]
  have hkey : invalid_key "sk-valid" = false := by decide
  simp [hkey]
  simp at ho
  rw [ho]

/-- C6 (amended): keyed by the final status, a completed record carries
`result` and `decision` (as set keys) and no error; a failed or timed-out
record carries neither `result` nor `decision` and — contrary to the claim
— no `error` field either (the code never creates one): the human-readable
cause is the final appended message; a record left in `starting` or
`analyzing` carries none of the three. -/
theorem record_status_fields_spec (symbol date key : String) (ch : Channel)
    (now : Nat) :
    ((finalRecord symbol date key ch now).status = Status.completed →
      (finalRecord symbol date key ch now).result.isSome = true ∧
      (finalRecord symbol date key ch now).decision.isSome = true ∧
      (finalRecord symbol date key ch now).error = none) ∧
    ((finalRecord symbol date key ch now).status = Status.failed →
      (finalRecord symbol date key ch now).error = none ∧
      (finalRecord symbol date key ch now).result = none ∧
      (finalRecord symbol date key ch now).decision = none ∧
      (finalRecord symbol date key ch now).messages.getLast?
        = some "Invalid OpenAI API key - please configure a valid API key") ∧
    ((finalRecord symbol date key ch now).status = Status.timeout →
      (finalRecord symbol date key ch now).error = none ∧
      (finalRecord symbol date key ch now).result = none ∧
      (finalRecord symbol date key ch now).decision = none ∧
      (finalRecord symbol date key ch now).messages.getLast?
        = some "Analysis timed out after 8 minutes") ∧
    (((finalRecord symbol date key ch now).status = Status.starting ∨
      (finalRecord symbol date key ch now).status = Status.analyzing) →
      (finalRecord symbol date key ch now).result = none ∧
      (finalRecord symbol date key ch now).decision = none ∧
      (finalRecord symbol date key ch now).error = none) := by
  by_cases hk : invalid_key key = true
  · refine ⟨?_, ?_, ?_, ?_⟩ <;> intro hst <;>
      (simp only [finalRecord, analyze_stock] at hst ⊢
       simp [hk] at hst ⊢) <;>
      simp_all [progressUpdates, initialRecord, List.getLast?_concat]
  · cases ho : (superviseAnalysis ch
        (progressUpdates (initialRecord symbol date now)).messages).outcome with
    | timedOut =>
      refine ⟨?_, ?_, ?_, ?_⟩ <;> intro hst <;>
        (simp only [finalRecord, analyze_stock] at hst ⊢
         simp [hk] at hst ⊢
         rw [ho] at hst ⊢) <;>
        simp_all [progressUpdates, initialRecord, List.getLast?_concat]
    | failure e =>
      refine ⟨?_, ?_, ?_, ?_⟩ <;> intro hst <;>
        (simp only [finalRecord, analyze_stock] at hst ⊢
         simp [hk] at hst ⊢
         rw [ho] at hst ⊢) <;>
        simp_all [progressUpdates, initialRecord, List.getLast?_concat]
    | success res dec =>
      refine ⟨?_, ?_, ?_, ?_⟩ <;> intro hst <;>
        (simp only [finalRecord, analyze_stock] at hst ⊢
         simp [hk] at hst ⊢
         rw [ho] at hst ⊢) <;>
        simp_all [progressUpdates, initialRecord, List.getLast?_concat]

/-- Counterexample to C6 as stated: a run that times out leaves the record
with terminal status `timeout` and no `error` field — the code never
creates an `error` key, so "error is present" fails for this reachable
record. -/
theorem record_timeout_no_error_cex :
    (finalRecord "AAPL" "2025-08-27" "sk-valid"
      ⟨none, Except.ok (AVal.null, DVal.null)⟩ 0).status = Status.timeout ∧
    (finalRecord "AAPL" "2025-08-27" "sk-valid"
      ⟨none, Except.ok (AVal.null, DVal.null)⟩ 0).error = none := by
  have hcond : threadAlive none
      (waitLoop none 0
        (progressUpdates (initialRecord "AAPL" "2025-08-27" 0)).messages).1
      = true :=
    (waitLoop_spec none
      (progressUpdates (initialRecord "AAPL" "2025-08-27" 0)).messages).2.trans rfl
  have ho : (superviseAnalysis ⟨none, Except.ok (AVal.null, DVal.null)⟩
      (progressUpdates (initialRecord "AAPL" "2025-08-27" 0)).messages).outcome
      = Outcome.timedOut := by
    simp [superviseAnalysis, hcond]
  have hkey : invalid_key "sk-valid" = false := by decide
  constructor <;>
    (simp only [finalRecord, analyze_stock]
     simp [hkey]
     rw [ho]
     try simp [progressUpdates, initialRecord])

/-- Witness for C6 on the timeout branch of the amended statement. -/
theorem record_status_fields_spec_witness :
    (finalRecord "AAPL" "2025-08-27" "sk-valid"
      ⟨none, Except.ok (AVal.null, DVal.null)⟩ 0).error = none ∧
    (finalRecord "AAPL" "2025-08-27" "sk-valid"
      ⟨none, Except.ok (AVal.null, DVal.null)⟩ 0).result = none ∧
    (finalRecord "AAPL" "2025-08-27" "sk-valid"
      ⟨none, Except.ok (AVal.null, DVal.null)⟩ 0).decision = none ∧
    (finalRecord "AAPL" "2025-08-27" "sk-valid"
      ⟨none, Except.ok (AVal.null, DVal.null)⟩ 0).messages.getLast?
      = some "Analysis timed out after 8 minutes" := by
  have hcond : threadAlive none
      (waitLoop none 0
        (progressUpdates (initialRecord "AAPL" "2025-08-27" 0)).messages).1
      = true :=
    (waitLoop_spec none
      (progressUpdates (initialRecord "AAPL" "2025-08-27" 0)).messages).2.trans rfl
  have ho : (superviseAnalysis ⟨none, Except.ok (AVal.null, DVal.null)⟩
      (progressUpdates (initialRecord "AAPL" "2025-08-27" 0)).messages).outcome
      = Outcome.timedOut := by
    simp [superviseAnalysis, hcond]
  have hkey : invalid_key "sk-valid" = false := by decide
  have hst : (finalRecord "AAPL" "2025-08-27" "sk-valid"
      ⟨none, Except.ok (AVal.null, DVal.null)⟩ 0).status = Status.timeout := by
    simp only [finalRecord, analyze_stock]
    simp [hkey]
    rw [ho]
  exact (record_status_fields_spec "AAPL" "2025-08-27" "sk-valid"
    ⟨none, Except.ok (AVal.null, DVal.null)⟩ 0).2.2.1 hst

/-- C8: when the credential precondition fails (missing or placeholder
key), the synchronous call fails fast with the configuration error before
spawning the executor thread, and the record is left in the terminal
`failed` state (not half-started in `starting`/`analyzing`). -/
theorem config_error_fail_fast (symbol date key : String) (ch : Channel)
    (now : Nat) (h : invalid_key key = true) :
    (analyze_stock symbol date key ch now).2.2 = false ∧
    (analyze_stock symbol date key ch now).2.1 = Response.configError ∧
    (finalRecord symbol date key ch now).status = Status.failed ∧
    (finalRecord symbol date key ch now).status ≠ Status.starting ∧
    (finalRecord symbol date key ch now).status ≠ Status.analyzing := by
  refine ⟨?_, ?_, ?_, ?_, ?_⟩ <;>
    (simp only [finalRecord, analyze_stock]
     simp [h])

/-- Witness for C8: the empty key and the placeholder key both fail fast
without spawning a thread. -/
theorem config_error_fail_fast_witness :
    (analyze_stock "AAPL" "2025-08-27" ""
      ⟨none, Except.ok (AVal.null, DVal.null)⟩ 0).2.2 = false ∧
    (analyze_stock "AAPL" "2025-08-27" ""
      ⟨none, Except.ok (AVal.null, DVal.null)⟩ 0).2.1 = Response.configError ∧
    (finalRecord "AAPL" "2025-08-27" "test_key_demo_only"
      ⟨none, Except.ok (AVal.null, DVal.null)⟩ 0).status = Status.failed :=
  ⟨(config_error_fail_fast "AAPL" "2025-08-27" ""
      ⟨none, Except.ok (AVal.null, DVal.null)⟩ 0 (by decide)).1,
   (config_error_fail_fast "AAPL" "2025-08-27" ""
      ⟨none, Except.ok (AVal.null, DVal.null)⟩ 0 (by decide)).2.1,
   (config_error_fail_fast "AAPL" "2025-08-27" "test_key_demo_only"
      ⟨none, Except.ok (AVal.null, DVal.null)⟩ 0 (by decide)).2.2.1⟩

/-! ### Claims C7 and C9 -/

lemma registryGet_insert_self (m : Registry) (k : String) (v : Record) :
    registryGet (registryInsert m k v) k = some v := by
  induction m with
  | nil => simp [registryInsert, registryGet, List.find?]
  | cons p rest ih =>
    by_cases hp : p.1 = k
    · simp [registryInsert, hp, registryGet, List.find?]
    · simp only [registryInsert]
      rw [if_neg hp]
      simp only [registryGet, List.find?] at ih ⊢
      simp [hp, ih]

lemma registryGet_insert_other (m : Registry) (k k2 : String) (v : Record)
    (hne : k2 ≠ k) : registryGet (registryInsert m k v) k2 = registryGet m k2 := by
  induction m with
  | nil => simp [registryInsert, registryGet, List.find?, Ne.symm hne]
  | cons p rest ih =>
    by_cases hp : p.1 = k
    · have hp2 : ¬ p.1 = k2 := by rw [hp]; exact Ne.symm hne
      simp [registryInsert, hp, registryGet, List.find?, Ne.symm hne, hp2]
    · by_cases hp2 : p.1 = k2
      · simp only [registryInsert]
        rw [if_neg hp]
        simp [registryGet, List.find?, hp2]
      · simp only [registryInsert]
        rw [if_neg hp]
        simp only [registryGet, List.find?] at ih ⊢
        simp [hp2, ih]

/-- C9 (amended): creating a record under an identifier already present in
the registry does not fail — Python dictionary assignment silently
replaces the existing record; bindings under other identifiers are
untouched. -/
theorem registry_create_overwrites (m : Registry) (id symbol date : String)
    (now : Nat) :
    registryGet (createRecord m id symbol date now) id
      = some (initialRecord symbol date now) ∧
    (∀ k, k ≠ id → registryGet (createRecord m id symbol date now) k
      = registryGet m k) :=
  ⟨registryGet_insert_self m id _,
   fun k hk => registryGet_insert_other m id k _ hk⟩

/-- Counterexample to C9 as stated: creating under the already-present
identifier `"id1"` does not leave the existing record unchanged — the old
record is replaced by the new one. -/
theorem registry_duplicate_overwrite_cex :
    registryGet (createRecord [("id1", initialRecord "AAPL" "2025-08-27" 5)]
      "id1" "MSFT" "2025-09-01" 9) "id1"
      = some (initialRecord "MSFT" "2025-09-01" 9) ∧
    registryGet (createRecord [("id1", initialRecord "AAPL" "2025-08-27" 5)]
      "id1" "MSFT" "2025-09-01" 9) "id1"
      ≠ some (initialRecord "AAPL" "2025-08-27" 5) := by
  constructor
  · decide
  · decide

/-- Witness for C9: a fresh identifier is appended and an unrelated
binding is untouched. -/
theorem registry_create_overwrites_witness :
    registryGet (createRecord [("other", initialRecord "TSLA" "2025-01-01" 1)]
      "id9" "AAPL" "2025-08-27" 2) "id9"
      = some (initialRecord "AAPL" "2025-08-27" 2) ∧
    registryGet (createRecord [("other", initialRecord "TSLA" "2025-01-01" 1)]
      "id9" "AAPL" "2025-08-27" 2) "other"
      = registryGet [("other", initialRecord "TSLA" "2025-01-01" 1)] "other" :=
  ⟨(registry_create_overwrites [("other", initialRecord "TSLA" "2025-01-01" 1)]
      "id9" "AAPL" "2025-08-27" 2).1,
   (registry_create_overwrites [("other", initialRecord "TSLA" "2025-01-01" 1)]
      "id9" "AAPL" "2025-08-27" 2).2 "other" (by decide)⟩

/-- C7 (amended: the endpoint has no `limit` parameter — the truncation
bound is fixed at 50): every entry of a non-sample history response comes
from a registry record with status `completed`, the entries are sorted by
completion time descending (newest first), and at most 50 are returned. -/
theorem analysis_history_spec (regs : Registry)
    (h : (analysisHistory regs).2 = false) :
    (analysisHistory regs).1.length ≤ 50 ∧
    List.Pairwise histOrder (analysisHistory regs).1 ∧
    (∀ e ∈ (analysisHistory regs).1, ∃ id r, (id, r) ∈ regs ∧
      r.status = Status.completed ∧ e = histEntry id r) := by
  by_cases hemp : (List.insertionSort histOrder
      ((regs.filter (fun p => decide (p.2.status = Status.completed))).map
        (fun p => histEntry p.1 p.2))).isEmpty
  · exfalso
    simp only [analysisHistory] at h
    rw [if_pos hemp] at h
    simp at h
  · have heq : (analysisHistory regs).1 = (List.insertionSort histOrder
        ((regs.filter (fun p => decide (p.2.status = Status.completed))).map
          (fun p => histEntry p.1 p.2))).take 50 := by
      simp only [analysisHistory]
      rw [if_neg hemp]
    rw [heq]
    refine ⟨?_, ?_, ?_⟩
    · rw [List.length_take]
      exact min_le_left _ _
    · exact List.Pairwise.sublist (List.take_sublist _ _)
        (List.sorted_insertionSort histOrder _)
    · intro e he
      have he2 := List.mem_of_mem_take he
      rw [List.mem_insertionSort] at he2
      obtain ⟨p, hp, hpe⟩ := List.mem_map.mp he2
      obtain ⟨hpreg, hpc⟩ := List.mem_filter.mp hp
      exact ⟨p.1, p.2, by simpa using hpreg, of_decide_eq_true hpc, hpe.symm⟩

/-- A completed demonstration record with the given completion instant. -/
def demoCompleted (sym : String) (c : Nat) : Record :=
  { initialRecord sym "2025-08-27" 0 with status := Status.completed, completed_at := some c }

/-- Counterexample to C7 as stated: the history endpoint takes no limit
parameter — over three completed jobs with completion times 1 < 2 < 3 it
returns all three entries, newest first, not two. -/
theorem analysis_history_limit_cex :
    ((analysisHistory [("a", demoCompleted "A" 1), ("b", demoCompleted "B" 2),
        ("c", demoCompleted "C" 3)]).1.map histKey = [3, 2, 1]) ∧
    ((analysisHistory [("a", demoCompleted "A" 1), ("b", demoCompleted "B" 2),
        ("c", demoCompleted "C" 3)]).1.length ≠ 2) := by
  constructor
  · decide
  · decide

/-- Witness for C7 on the same three-record registry. -/
theorem analysis_history_spec_witness :
    (analysisHistory [("a", demoCompleted "A" 1), ("b", demoCompleted "B" 2),
        ("c", demoCompleted "C" 3)]).1.length ≤ 50 ∧
    List.Pairwise histOrder
      (analysisHistory [("a", demoCompleted "A" 1), ("b", demoCompleted "B" 2),
        ("c", demoCompleted "C" 3)]).1 := by
  have h : (analysisHistory [("a", demoCompleted "A" 1), ("b", demoCompleted "B" 2),
      ("c", demoCompleted "C" 3)]).2 = false := by decide
  exact ⟨(analysis_history_spec _ h).1, (analysis_history_spec _ h).2.1⟩
